import Mathlib

/-!
# RUCBASE `DiskManager` (storage/disk_manager.cpp)

A shallow embedding of `DiskManager` together with a small model of the POSIX
calls it makes (`stat`, `open`, `close`, `unlink`, `lseek`, `read`, `write`).

Conventions of the embedding

* C `int` values are `Int`; every `int` arithmetic result is reduced with `wrap32`.
  The type `page_id_t` comes from a header outside the sources and is taken to
  be a 32-bit `int`.
* A byte is a `Nat`; a C buffer is the list of its bytes.
* Every member function takes the object state `DiskManager` and the state of
  the operating system `OS` and returns the outcome together with both states.
* Behaviour that C++ leaves undefined (erasing `end()`, indexing outside an
  array) is the outcome `Outcome.undefined`.

The operating-system model is a flat name space of inodes, a descriptor table
with lowest-free-descriptor allocation bounded by `nofile`, and regular files
that are byte lists.  Permissions and storage limits are not modelled.
-/

/-! ## Machine integers -/

/-- Largest value of a 32-bit `int`. -/
def INT_MAX : Int := 2147483647

/-- Two-complement reduction of an integer to the range of a 32-bit `int`. -/
def wrap32 (x : Int) : Int := (x + 2147483648) % 4294967296 - 2147483648

/-- Conversion of a signed integer to `size_t` (64 bit). -/
def toSizeT (x : Int) : Nat := (x % 18446744073709551616).toNat

/-! ## Operating-system model -/

/-- What an inode holds: a regular file with its bytes, or a directory. -/
inductive Node where
  | reg (data : List Nat)
  | dir
  deriving DecidableEq, Repr

/-- An open file description: inode, file offset and access mode. -/
structure OpenFile where
  ino : Nat
  pos : Nat
  rd : Bool
  wr : Bool
  deriving DecidableEq, Repr

/-- State of the operating system as seen by one process. -/
structure OS where
  names : String → Option Nat
  inodes : Nat → Option Node
  fds : Nat → Option OpenFile
  nofile : Nat
  nextIno : Nat

/-- The two flag words the program passes to `open`. -/
inductive OFlag where
  | O_RDWR
  | O_CREAT
  deriving DecidableEq, Repr

def S_IFMT : Nat := 0o170000

def S_IFREG : Nat := 0o100000

def S_IFDIR : Nat := 0o040000

/-- The `st_mode` word: file type bits and permission bits. -/
def Node.st_mode : Node → Nat
  | .reg _ => S_IFREG ||| 0o600
  | .dir => S_IFDIR ||| 0o755

/-- The `st_size` field. -/
def Node.st_size : Node → Nat
  | .reg data => data.length
  | .dir => 0

namespace OS

/-- The call `stat(path, &s)`: the node when the call returns 0. -/
def stat (os : OS) (path : String) : Option Node :=
  match os.names path with
  | some ino => os.inodes ino
  | none => none

/-- The open file description behind a descriptor number. -/
def fd (os : OS) (d : Int) : Option OpenFile :=
  if 0 ≤ d then os.fds d.toNat else none

/-- Lowest descriptor number not in use, below the limit `nofile`. -/
def lowestFree (os : OS) : Option Nat :=
  (List.range os.nofile).find? (fun n => (os.fds n).isNone)

/-- The call `open(path, flags, 0600)`: the returned descriptor, -1 on failure. -/
def «open» (os : OS) (path : String) (fl : OFlag) : Int × OS :=
  match os.lowestFree with
  | none => (-1, os)
  | some d =>
    match os.names path with
    | some ino =>
      match os.inodes ino with
      | some (.reg _) =>
        ((d : Int), { os with fds := Function.update os.fds d (some ⟨ino, 0, true, fl = .O_RDWR⟩) })
      | _ => (-1, os)
    | none =>
      match fl with
      | .O_RDWR => (-1, os)
      | .O_CREAT =>
        ((d : Int),
          { os with
            names := Function.update os.names path (some os.nextIno)
            inodes := Function.update os.inodes os.nextIno (some (.reg []))
            fds := Function.update os.fds d (some ⟨os.nextIno, 0, true, false⟩)
            nextIno := os.nextIno + 1 })

/-- The call `close(fd)`. -/
def close (os : OS) (d : Int) : Int × OS :=
  match os.fd d with
  | some _ => (0, { os with fds := Function.update os.fds d.toNat none })
  | none => (-1, os)

/-- The call `unlink(path)`. -/
def unlink (os : OS) (path : String) : Int × OS :=
  match os.stat path with
  | some (.reg _) => (0, { os with names := Function.update os.names path none })
  | _ => (-1, os)

/-- The call `lseek(fd, off, SEEK_SET)`. -/
def lseek_set (os : OS) (d : Int) (off : Int) : Int × OS :=
  match os.fd d with
  | some f =>
    if 0 ≤ off then
      (off, { os with fds := Function.update os.fds d.toNat (some { f with pos := off.toNat }) })
    else (-1, os)
  | none => (-1, os)

/-- The call `lseek(fd, 0, SEEK_END)`. -/
def lseek_end (os : OS) (d : Int) : Int × OS :=
  match os.fd d with
  | some f =>
    match os.inodes f.ino with
    | some n =>
      ((n.st_size : Int),
        { os with fds := Function.update os.fds d.toNat (some { f with pos := n.st_size }) })
    | none => (-1, os)
  | none => (-1, os)

/-- File content after writing `src` at offset `pos` (a gap is zero filled). -/
def writeAt (data : List Nat) (pos : Nat) (src : List Nat) : List Nat :=
  if src = [] then data
  else (data ++ List.replicate (pos - data.length) 0).take pos ++ src ++ data.drop (pos + src.length)

/-- The call `write(fd, buf, count)`; `src` is the first `count` bytes of `buf`. -/
def write (os : OS) (d : Int) (src : List Nat) : Int × OS :=
  match os.fd d with
  | some f =>
    match f.wr, os.inodes f.ino with
    | true, some (.reg data) =>
      ((src.length : Int),
        { os with
          inodes := Function.update os.inodes f.ino (some (.reg (writeAt data f.pos src)))
          fds := Function.update os.fds d.toNat (some { f with pos := f.pos + src.length }) })
    | _, _ => (-1, os)
  | none => (-1, os)

/-- The call `read(fd, buf, count)`: the byte count returned (-1 on error),
the bytes delivered, and the new state. -/
def read (os : OS) (d : Int) (count : Nat) : Int × List Nat × OS :=
  match os.fd d with
  | some f =>
    match f.rd, os.inodes f.ino with
    | true, some (.reg data) =>
      let got := (data.drop f.pos).take count
      ((got.length : Int), got,
        { os with fds := Function.update os.fds d.toNat (some { f with pos := f.pos + got.length }) })
    | _, _ => (-1, [], os)
  | none => (-1, [], os)

end OS

/-- A buffer after `got` has been stored at its start. -/
def store (buf got : List Nat) : List Nat := got ++ buf.drop got.length

/-! ## `std::unordered_map` as an association list -/

namespace UMap

variable {κ ν : Type} [DecidableEq κ]

/-- The member `find(k)`: the mapped value, `none` for `end()`. -/
def find (m : List (κ × ν)) (k : κ) : Option ν :=
  match m with
  | [] => none
  | (k', v) :: t => if k' = k then some v else find t k

/-- The member `count(k)`. -/
def count (m : List (κ × ν)) (k : κ) : Nat :=
  if (find m k).isSome then 1 else 0

/-- The member `insert(pair)`: no effect when the key is present. -/
def insert (m : List (κ × ν)) (k : κ) (v : ν) : List (κ × ν) :=
  if (find m k).isSome then m else m ++ [(k, v)]

/-- The member `erase(find(k))` for a key that is present: removes that element. -/
def erase (m : List (κ × ν)) (k : κ) : List (κ × ν) :=
  match m with
  | [] => []
  | (k', v) :: t => if k' = k then t else (k', v) :: erase t k

/-- Keys are pairwise distinct, as in every `std::unordered_map`. -/
def WF (m : List (κ × ν)) : Prop := (m.map Prod.fst).Nodup

end UMap

/-! ## The object state and outcomes -/

/-- Data members of `DiskManager`. -/
structure DiskManager where
  path2fd_ : List (String × Int)
  fd2path_ : List (Int × String)
  fd2pageno_ : List Int
  log_fd_ : Int
  deriving DecidableEq, Repr

/-- Exceptions thrown by the member functions. -/
inductive Exn where
  | UnixError
  | FileNotOpenError (fd : Int)
  deriving DecidableEq, Repr

/-- How a call ends: normal return, exception, or undefined behaviour. -/
inductive Outcome (α : Type) where
  | ret (a : α)
  | throw (e : Exn)
  | undefined
  deriving DecidableEq, Repr

/-- Outcome of a member function with the states it leaves behind. -/
structure Step (α : Type) where
  out : Outcome α
  dm : DiskManager
  os : OS

/-- Outcome of a member function that also fills a caller buffer. -/
structure BufStep (α : Type) where
  out : Outcome α
  buf : List Nat
  dm : DiskManager
  os : OS

/-- Modelled from the spec: `LOG_FILE_NAME` is declared in a header that is not
part of the sources; the spec only says it is a single well-known path. -/
def LOG_FILE_NAME : String := "db.log"

namespace DiskManager

/-- Modelled from the spec: the class declaration is not part of the sources.
The constructor zeroes the `MAX_FD` counters with `memset`; the array size
`MAX_FD` is a parameter, and the log handle starts in the state Unopened,
which the code tests as `log_fd_ == -1`. -/
def new (MAX_FD : Nat) : DiskManager :=
  { path2fd_ := [], fd2path_ := [], fd2pageno_ := List.replicate MAX_FD 0, log_fd_ := -1 }

def write_page (dm : DiskManager) (os : OS) (fd page_no : Int) (offset : List Nat)
    (num_bytes : Int) : Step Unit :=
  let r := os.lseek_set fd (wrap32 (page_no * num_bytes))
  if r.1 = -1 then ⟨.throw .UnixError, dm, r.2⟩
  else
    let w := r.2.write fd (offset.take (toSizeT num_bytes))
    ⟨.ret (), dm, w.2⟩

def read_page (dm : DiskManager) (os : OS) (fd page_no : Int) (offset : List Nat)
    (num_bytes : Int) : BufStep Unit :=
  let r := os.lseek_set fd (wrap32 (page_no * num_bytes))
  if r.1 = -1 then ⟨.throw .UnixError, offset, dm, r.2⟩
  else
    let g := r.2.read fd (toSizeT num_bytes)
    ⟨.ret (), store offset g.2.1, dm, g.2.2⟩

def AllocatePage (dm : DiskManager) (os : OS) (fd : Int) : Step Int :=
  if 0 ≤ fd ∧ fd.toNat < dm.fd2pageno_.length then
    let c := wrap32 (dm.fd2pageno_.getD fd.toNat 0 + 1)
    ⟨.ret (wrap32 (c - 1)), { dm with fd2pageno_ := dm.fd2pageno_.set fd.toNat c }, os⟩
  else ⟨.undefined, dm, os⟩

def is_dir (os : OS) (path : String) : Bool :=
  match os.stat path with
  | some n => n.st_mode &&& S_IFMT = S_IFDIR
  | none => false

def is_file (os : OS) (path : String) : Bool :=
  match os.stat path with
  | some n => decide (n.st_mode ≠ 0) && decide (S_IFREG ≠ 0)
  | none => false

def create_file (dm : DiskManager) (os : OS) (path : String) : Step Unit :=
  let exist : Bool :=
    match os.stat path with
    | some n => decide (n.st_mode ≠ 0) && decide (S_IFREG ≠ 0)
    | none => false
  if !exist then ⟨.ret (), dm, (os.open path .O_CREAT).2⟩
  else ⟨.ret (), dm, os⟩

def destroy_file (dm : DiskManager) (os : OS) (path : String) : Step Unit :=
  match UMap.find dm.path2fd_ path with
  | some fd =>
    match UMap.find dm.fd2path_ fd with
    | some _ =>
      let dm1 := { dm with path2fd_ := UMap.erase dm.path2fd_ path,
                           fd2path_ := UMap.erase dm.fd2path_ fd }
      ⟨.ret (), dm1, ((os.close fd).2.unlink path).2⟩
    | none => ⟨.undefined, { dm with path2fd_ := UMap.erase dm.path2fd_ path }, os⟩
  | none => ⟨.ret (), dm, (os.unlink path).2⟩

def open_file (dm : DiskManager) (os : OS) (path : String) : Step Int :=
  let found := dm.path2fd_.any (fun e => e.1 = path)
  if found = false then
    let r := os.open path .O_RDWR
    ⟨.ret r.1,
      { dm with path2fd_ := UMap.insert dm.path2fd_ path r.1,
                fd2path_ := UMap.insert dm.fd2path_ r.1 path },
      r.2⟩
  else ⟨.ret (-1), dm, os⟩

def close_file (dm : DiskManager) (os : OS) (fd : Int) : Step Unit :=
  let found1 := dm.fd2path_.any (fun e => e.1 = fd)
  let f2p := dm.fd2path_.filter (fun e => !decide (e.1 = fd))
  let found2 := dm.path2fd_.any (fun e => e.2 = fd)
  let p2f := dm.path2fd_.filter (fun e => !decide (e.2 = fd))
  let dm1 := { dm with path2fd_ := p2f, fd2path_ := f2p }
  if found1 || found2 then ⟨.ret (), dm1, (os.close fd).2⟩
  else ⟨.throw (.FileNotOpenError fd), dm1, os⟩

def GetFileSize (os : OS) (file_name : String) : Int :=
  match os.stat file_name with
  | some n => wrap32 n.st_size
  | none => -1

def GetFileName (dm : DiskManager) (os : OS) (fd : Int) : Step String :=
  match UMap.find dm.fd2path_ fd with
  | some p => ⟨.ret p, dm, os⟩
  | none => ⟨.throw (.FileNotOpenError fd), dm, os⟩

def GetFileFd (dm : DiskManager) (os : OS) (file_name : String) : Step Int :=
  match UMap.find dm.path2fd_ file_name with
  | none => open_file dm os file_name
  | some fd => ⟨.ret fd, dm, os⟩

/-- The statement `if (log_fd_ == -1) log_fd_ = open_file(LOG_FILE_NAME);`. -/
def lazy_open_log (dm : DiskManager) (os : OS) : DiskManager × OS :=
  if dm.log_fd_ = -1 then
    let s := open_file dm os LOG_FILE_NAME
    match s.out with
    | .ret fd => ({ s.dm with log_fd_ := fd }, s.os)
    | _ => (s.dm, s.os)
  else (dm, os)

def ReadLog (dm : DiskManager) (os : OS) (log_data : List Nat) (size offset prev_log_end : Int) :
    BufStep Bool :=
  let st := lazy_open_log dm os
  let offset := wrap32 (offset + prev_log_end)
  let file_size := GetFileSize st.2 LOG_FILE_NAME
  if file_size ≤ offset then ⟨.ret false, log_data, st.1, st.2⟩
  else
    let size := min size (wrap32 (file_size - offset))
    let sk := st.2.lseek_set st.1.log_fd_ offset
    let g := sk.2.read st.1.log_fd_ (toSizeT size)
    if g.1 ≠ size then ⟨.throw .UnixError, store log_data g.2.1, st.1, g.2.2⟩
    else ⟨.ret true, store log_data g.2.1, st.1, g.2.2⟩

def WriteLog (dm : DiskManager) (os : OS) (log_data : List Nat) (size : Int) : Step Unit :=
  let st := lazy_open_log dm os
  let sk := st.2.lseek_end st.1.log_fd_
  let w := sk.2.write st.1.log_fd_ (log_data.take (toSizeT size))
  if w.1 ≠ size then ⟨.throw .UnixError, st.1, w.2⟩
  else ⟨.ret (), st.1, w.2⟩

end DiskManager

/-- Outcomes of `n` consecutive calls `AllocatePage(fd)`, in call order, and the
object state after the last one. -/
def DiskManager.allocN (dm : DiskManager) (os : OS) (fd : Int) :
    Nat → List (Outcome Int) × DiskManager
  | 0 => ([], dm)
  | n + 1 =>
    ((DiskManager.AllocatePage dm os fd).out ::
        (allocN (DiskManager.AllocatePage dm os fd).dm os fd n).1,
      (allocN (DiskManager.AllocatePage dm os fd).dm os fd n).2)

/-- The registry invariant: the two maps are mutually inverse. -/
def DiskManager.Inv (dm : DiskManager) : Prop :=
  ∀ p d, UMap.find dm.path2fd_ p = some d ↔ UMap.find dm.fd2path_ d = some p

/-- A registry as the class intends it: both maps have distinct keys and are
mutually inverse. -/
def DiskManager.RegOK (dm : DiskManager) : Prop :=
  UMap.WF dm.path2fd_ ∧ UMap.WF dm.fd2path_ ∧ dm.Inv

/-- The log channel is usable and the log file holds the bytes `L`: the name
`LOG_FILE_NAME` denotes a regular file with content `L`, and either the log
has not been opened yet (then the name is not registered and a descriptor is
free), or `log_fd_` is a descriptor open for reading and writing on that file. -/
def DiskManager.LogReady (dm : DiskManager) (os : OS) (L : List Nat) : Prop :=
  ∃ ino, os.names LOG_FILE_NAME = some ino ∧ os.inodes ino = some (.reg L) ∧
    ((dm.log_fd_ = -1 ∧ UMap.find dm.path2fd_ LOG_FILE_NAME = none ∧
        os.lowestFree.isSome = true) ∨
      ∃ pos, os.fd dm.log_fd_ = some ⟨ino, pos, true, true⟩)

/-! ## Concrete states used in the examples -/

namespace Example

/-- A process with descriptors 0, 1, 2 open on node 0, an empty log file
`db.log`, a two-byte file `t.db` and a directory `d`; at most 8 descriptors. -/
def os0 : OS :=
  { names := fun p =>
      if p = "db.log" then some 1 else if p = "t.db" then some 2 else if p = "d" then some 3
      else none
    inodes := fun i =>
      if i = 0 then some (.reg []) else if i = 1 then some (.reg [])
      else if i = 2 then some (.reg [65, 66]) else if i = 3 then some .dir else none
    fds := fun d => if d < 3 then some ⟨0, 0, true, true⟩ else none
    nofile := 8
    nextIno := 4 }

/-- A freshly constructed manager with 16 counters. -/
def dm0 : DiskManager := DiskManager.new 16

/-- After `open_file("t.db")` in the initial state: descriptor 3 is registered. -/
def opened : Step Int := DiskManager.open_file dm0 os0 "t.db"

/-- After `open_file("a")`, `open_file("b")` (both files are missing, both
calls return -1) and `destroy_file("a")`. -/
def ghost : Step Unit :=
  let s1 := DiskManager.open_file dm0 os0 "a"
  let s2 := DiskManager.open_file s1.dm s1.os "b"
  DiskManager.destroy_file s2.dm s2.os "a"

/-- After two `open_file` calls on the missing files `a` and `b`. -/
def twoFailed : Step Int :=
  let s1 := DiskManager.open_file dm0 os0 "a"
  DiskManager.open_file s1.dm s1.os "b"

/-- After `open_file("t.db")`, one `AllocatePage(3)`, `close_file(3)` and a
second `open_file("t.db")`. -/
def reopened : Step Int :=
  let a := DiskManager.AllocatePage opened.dm opened.os 3
  let c := DiskManager.close_file a.dm a.os 3
  DiskManager.open_file c.dm c.os "t.db"

/-- After `create_file("new.db")` in the initial state; the descriptor 3 that
`open(path, O_CREAT, 0600)` returned is still open, for reading only. -/
def created : Step Unit := DiskManager.create_file dm0 os0 "new.db"

/-- After `WriteLog("REC1", 4)` and `WriteLog("REC2", 4)` in the initial state. -/
def logged : Step Unit :=
  let w1 := DiskManager.WriteLog dm0 os0 [82, 69, 67, 49] 4
  DiskManager.WriteLog w1.dm w1.os [82, 69, 67, 50] 4

end Example

namespace UMap
variable {κ ν : Type} [DecidableEq κ]

theorem find_eq_none_iff (m : List (κ × ν)) (k : κ) :
    find m k = none ↔ ∀ e ∈ m, e.1 ≠ k := by
  induction m with
  | nil => simp [find]
  | cons a t ih =>
    obtain ⟨k', v⟩ := a
    by_cases h : k' = k
    · simp [find, h]
    · simp [find, h, ih]

theorem any_key_eq_isSome (m : List (κ × ν)) (k : κ) :
    m.any (fun e => decide (e.1 = k)) = (find m k).isSome := by
  induction m with
  | nil => simp [find]
  | cons a t ih =>
    obtain ⟨k', v⟩ := a
    by_cases h : k' = k
    · simp [find, h]
    · simp [find, h, ih]

theorem find_filter_key_self (m : List (κ × ν)) (k : κ) :
    find (m.filter (fun e => !decide (e.1 = k))) k = none := by
  rw [find_eq_none_iff]
  intro e he
  simpa using (List.mem_filter.mp he).2

theorem find_filter_key_ne (m : List (κ × ν)) (k d : κ) (h : d ≠ k) :
    find (m.filter (fun e => !decide (e.1 = k))) d = find m d := by
  induction m with
  | nil => rfl
  | cons a t ih =>
    obtain ⟨k', v⟩ := a
    by_cases hk : k' = k
    · have hd : ¬ k' = d := fun h' => h (h' ▸ hk)
      have hf : List.filter (fun e => !decide (e.1 = k)) ((k', v) :: t)
          = List.filter (fun e => !decide (e.1 = k)) t := by
        simp [List.filter_cons, hk]
      rw [hf, ih]
      simp [find, hd]
    · have hf : List.filter (fun e => !decide (e.1 = k)) ((k', v) :: t)
          = (k', v) :: List.filter (fun e => !decide (e.1 = k)) t := by
        simp [List.filter_cons, hk]
      rw [hf]
      by_cases hd : k' = d
      · simp [find, hd]
      · simp [find, hd, ih]

theorem find_filter_val_ne [DecidableEq ν] (m : List (κ × ν)) (v : ν) (p : κ) :
    find (m.filter (fun e => !decide (e.2 = v))) p ≠ some v := by
  induction m with
  | nil => simp [find]
  | cons a t ih =>
    obtain ⟨k', w⟩ := a
    by_cases hw : w = v
    · simpa [List.filter, hw] using ih
    · by_cases hd : k' = p
      · simp [List.filter, find, hw, hd]
      · simpa [List.filter, find, hw, hd] using ih

theorem find_filter_val_keep [DecidableEq ν] (m : List (κ × ν)) (v : ν) (p : κ)
    (h : find m p ≠ some v) :
    find (m.filter (fun e => !decide (e.2 = v))) p = find m p := by
  induction m with
  | nil => rfl
  | cons a t ih =>
    obtain ⟨k', w⟩ := a
    by_cases hd : k' = p
    · have hw : ¬ w = v := by
        intro hw; apply h; simp [find, hd, hw]
      simp [List.filter, find, hw, hd]
    · have h' : find t p ≠ some v := by simpa [find, hd] using h
      by_cases hw : w = v
      · simpa [List.filter, find, hw, hd] using ih h'
      · simpa [List.filter, find, hw, hd] using ih h'

theorem find_append_single (m : List (κ × ν)) (k : κ) (v : ν) (d : κ) :
    find (m ++ [(k, v)]) d = match find m d with
      | some w => some w
      | none => if k = d then some v else none := by
  induction m with
  | nil => simp [find]
  | cons a t ih =>
    obtain ⟨k', w⟩ := a
    by_cases hd : k' = d
    · simp [find, hd]
    · simp [find, hd, ih]

theorem find_erase_ne (m : List (κ × ν)) (k d : κ) (h : d ≠ k) :
    find (erase m k) d = find m d := by
  induction m with
  | nil => rfl
  | cons a t ih =>
    obtain ⟨k', v⟩ := a
    by_cases hk : k' = k
    · subst hk
      have hd : ¬ k' = d := fun h' => h h'.symm
      simp [erase, find, hd]
    · by_cases hd : k' = d
      · subst hd
        simp [erase, find, hk]
      · simp [erase, find, hk, hd, ih]

theorem find_erase_self (m : List (κ × ν)) (hm : WF m) (k : κ) :
    find (erase m k) k = none := by
  induction m with
  | nil => rfl
  | cons a t ih =>
    obtain ⟨k', v⟩ := a
    have hm' : k' ∉ t.map Prod.fst ∧ WF t := by simpa [WF] using hm
    by_cases hk : k' = k
    · simp only [erase, hk, if_true]
      rw [find_eq_none_iff]
      intro e he hek
      apply hm'.1
      rw [hk, ← hek]
      exact List.mem_map.mpr ⟨e, he, rfl⟩
    · simp [erase, find, hk, ih hm'.2]

theorem erase_sublist (m : List (κ × ν)) (k : κ) : (erase m k).Sublist m := by
  induction m with
  | nil => exact List.Sublist.refl _
  | cons a t ih =>
    obtain ⟨k', v⟩ := a
    by_cases hk : k' = k
    · simp only [erase, hk, if_true]
      exact List.sublist_cons_self _ _
    · simp only [erase, hk, if_false]
      exact ih.cons₂ _

theorem WF_erase (m : List (κ × ν)) (hm : WF m) (k : κ) : WF (erase m k) :=
  List.Nodup.sublist ((erase_sublist m k).map Prod.fst) hm

theorem WF_filter (m : List (κ × ν)) (hm : WF m) (q : κ × ν → Bool) (k : κ) :
    WF (m.filter q) ∧ (find m k = none → find (m.filter q) k = none) := by
  refine ⟨List.Nodup.sublist ((List.filter_sublist m).map Prod.fst) hm, ?_⟩
  intro h
  rw [find_eq_none_iff] at h ⊢
  exact fun e he => h e (List.mem_filter.mp he).1

theorem WF_insert (m : List (κ × ν)) (hm : WF m) (k : κ) (v : ν) : WF (insert m k v) := by
  unfold insert
  split
  · exact hm
  · rename_i h
    have hn : find m k = none := by simpa using h
    rw [find_eq_none_iff] at hn
    unfold WF
    rw [List.map_append, List.nodup_append]
    refine ⟨hm, by simp, ?_⟩
    intro a ha hb
    obtain ⟨e, he, rfl⟩ := List.mem_map.mp ha
    simp at hb
    exact hn e he hb

theorem find_insert (m : List (κ × ν)) (k : κ) (v : ν) (d : κ) :
    find (insert m k v) d =
      match find m d with
      | some w => some w
      | none => if k = d then some v else none := by
  unfold insert
  split
  · rename_i h
    cases hd : find m d with
    | some w => rfl
    | none =>
      have : ¬ k = d := by
        intro e
        rw [e, hd] at h
        simp at h
      simp [this]
  · exact find_append_single m k v d

end UMap

open DiskManager

/-! ## `open_file` on a registered path -/

theorem open_file_already_open_aux (dm : DiskManager) (os : OS) (path : String)
    (h : (UMap.find dm.path2fd_ path).isSome = true) :
    (open_file dm os path).out = .ret (-1) ∧ (open_file dm os path).dm = dm ∧
      (open_file dm os path).os = os := by
  simp [open_file, UMap.any_key_eq_isSome, h]

theorem ghost_state :
    Example.ghost.dm.path2fd_ = [("b", -1)] ∧ Example.ghost.dm.fd2path_ = [] := by decide

/-- C2 (counterexample): after two failed opens and a destroy the registry is
`path2fd_ = [("b", -1)]`, `fd2path_ = []`; there -1 is not a key of `fd2path_`,
yet `close_file(-1)` returns normally instead of raising `FileNotOpenError`. -/
theorem close_file_returns_for_unkeyed_fd :
    UMap.find Example.ghost.dm.fd2path_ (-1) = none ∧
    (close_file Example.ghost.dm Example.ghost.os (-1)).out = .ret () ∧
    (close_file Example.ghost.dm Example.ghost.os (-1)).out ≠ .throw (.FileNotOpenError (-1)) := by
  decide

theorem close_file_out (dm : DiskManager) (os : OS) (fd : Int) :
    (close_file dm os fd).out =
      if (dm.fd2path_.any (fun e => decide (e.1 = fd)) || dm.path2fd_.any (fun e => decide (e.2 = fd)))
        = true
      then .ret () else .throw (.FileNotOpenError fd) := by
  unfold close_file
  split <;> simp_all

theorem close_file_dm (dm : DiskManager) (os : OS) (fd : Int) :
    (close_file dm os fd).dm =
      { dm with path2fd_ := dm.path2fd_.filter (fun e => !decide (e.2 = fd)),
                fd2path_ := dm.fd2path_.filter (fun e => !decide (e.1 = fd)) } := by
  by_cases h : (dm.fd2path_.any (fun e => decide (e.1 = fd)) ||
      dm.path2fd_.any (fun e => decide (e.2 = fd))) = true
  · simp only [close_file, h, if_true]
  · simp only [close_file, h, if_false]
    rfl

theorem close_file_throw_iff (dm : DiskManager) (os : OS) (fd : Int) :
    (close_file dm os fd).out = .throw (.FileNotOpenError fd) ↔
      (∀ e ∈ dm.fd2path_, e.1 ≠ fd) ∧ (∀ e ∈ dm.path2fd_, e.2 ≠ fd) := by
  rw [close_file_out]
  constructor
  · intro h
    split at h
    · cases h
    · rename_i hn
      simp only [Bool.or_eq_true, List.any_eq_true, decide_eq_true_eq, not_or, not_exists,
        not_and] at hn
      exact ⟨fun e he => hn.1 e he, fun e he => hn.2 e he⟩
  · rintro ⟨h1, h2⟩
    rw [if_neg]
    simp only [Bool.or_eq_true, List.any_eq_true, decide_eq_true_eq, not_or, not_exists,
      not_and]
    exact ⟨fun e he => h1 e he, fun e he => h2 e he⟩

theorem UMap.mem_of_find {κ ν : Type} [DecidableEq κ] (m : List (κ × ν)) (k : κ) (v : ν)
    (h : UMap.find m k = some v) : (k, v) ∈ m := by
  induction m with
  | nil => simp [UMap.find] at h
  | cons a t ih =>
    obtain ⟨k', w⟩ := a
    by_cases hd : k' = k
    · simp [UMap.find, hd] at h
      simp [hd, h]
    · simp [UMap.find, hd] at h
      exact List.mem_cons_of_mem _ (ih h)

theorem UMap.find_of_mem {κ ν : Type} [DecidableEq κ] (m : List (κ × ν)) (hm : UMap.WF m)
    (k : κ) (v : ν) (h : (k, v) ∈ m) : UMap.find m k = some v := by
  induction m with
  | nil => simp at h
  | cons a t ih =>
    obtain ⟨k', w⟩ := a
    have hm' : k' ∉ t.map Prod.fst ∧ UMap.WF t := by
      simpa [UMap.WF] using hm
    rcases List.mem_cons.mp h with h | h
    · cases h
      simp [UMap.find]
    · have hne : ¬ k' = k := by
        intro e
        apply hm'.1
        rw [e]
        exact List.mem_map.mpr ⟨(k, v), h, rfl⟩
      simp [UMap.find, hne, ih hm'.2 h]

/-- C2 (amended): `close_file(fd)` raises `FileNotOpenError(fd)` exactly when
`fd` is neither a key of `fd2path_` nor a value of `path2fd_`, and otherwise
returns normally; in both cases afterwards `fd` is not a key of `fd2path_`, no
path maps to `fd`, and every other entry of both maps is as before; when it
raises, the object and the operating system are unchanged; and when the two
maps are well formed and mutually inverse it raises exactly when `fd` is not a
key of `fd2path_`. -/
theorem close_file_spec (dm : DiskManager) (os : OS) (fd : Int) :
    ((close_file dm os fd).out = .throw (.FileNotOpenError fd) ↔
      (∀ e ∈ dm.fd2path_, e.1 ≠ fd) ∧ (∀ e ∈ dm.path2fd_, e.2 ≠ fd)) ∧
    ((close_file dm os fd).out = .throw (.FileNotOpenError fd) ∨
      (close_file dm os fd).out = .ret ()) ∧
    UMap.find (close_file dm os fd).dm.fd2path_ fd = none ∧
    (∀ p, UMap.find (close_file dm os fd).dm.path2fd_ p ≠ some fd) ∧
    (∀ d, d ≠ fd →
      UMap.find (close_file dm os fd).dm.fd2path_ d = UMap.find dm.fd2path_ d) ∧
    (∀ p, UMap.find dm.path2fd_ p ≠ some fd →
      UMap.find (close_file dm os fd).dm.path2fd_ p = UMap.find dm.path2fd_ p) ∧
    ((close_file dm os fd).out = .throw (.FileNotOpenError fd) →
      (close_file dm os fd).dm = dm ∧ (close_file dm os fd).os = os) ∧
    (UMap.WF dm.path2fd_ → dm.Inv →
      ((close_file dm os fd).out = .throw (.FileNotOpenError fd) ↔
        UMap.find dm.fd2path_ fd = none)) := by
  refine ⟨close_file_throw_iff dm os fd, ?_, ?_, ?_, ?_, ?_, ?_, ?_⟩
  · rw [close_file_out]
    split
    · exact Or.inr rfl
    · exact Or.inl rfl
  · rw [close_file_dm]
    exact UMap.find_filter_key_self _ _
  · intro p
    rw [close_file_dm]
    exact UMap.find_filter_val_ne _ _ _
  · intro d hd
    rw [close_file_dm]
    exact UMap.find_filter_key_ne _ _ _ hd
  · intro p hp
    rw [close_file_dm]
    exact UMap.find_filter_val_keep _ _ _ hp
  · intro h
    have hk := (close_file_throw_iff dm os fd).mp h
    have h1 : dm.fd2path_.filter (fun e => !decide (e.1 = fd)) = dm.fd2path_ :=
      List.filter_eq_self.mpr (fun e he => by simpa using hk.1 e he)
    have h2 : dm.path2fd_.filter (fun e => !decide (e.2 = fd)) = dm.path2fd_ :=
      List.filter_eq_self.mpr (fun e he => by simpa using hk.2 e he)
    constructor
    · rw [close_file_dm, h1, h2]
    · unfold close_file
      rw [close_file_out] at h
      split at h
      · cases h
      · rename_i hn
        simp only [hn]
        rfl
  · intro hwf hinv
    rw [close_file_throw_iff, UMap.find_eq_none_iff]
    constructor
    · exact fun h => h.1
    · intro h
      refine ⟨h, ?_⟩
      rintro ⟨p, d⟩ he hd
      have hf : UMap.find dm.path2fd_ p = some d := UMap.find_of_mem _ hwf p d he
      have hg : UMap.find dm.fd2path_ d = some p := (hinv p d).mp hf
      have := UMap.mem_of_find _ _ _ hg
      exact h _ this hd

/-- C2 (witness): the amended statement at the registry with `t.db` open as 3. -/
theorem close_file_spec_witness :
    (close_file Example.opened.dm Example.opened.os 3).out = .throw (.FileNotOpenError 3) ↔
      UMap.find Example.opened.dm.fd2path_ 3 = none :=
  (close_file_spec Example.opened.dm Example.opened.os 3).2.2.2.2.2.2.2
    (by
      have h1 : Example.opened.dm.path2fd_ = [("t.db", 3)] := by decide
      rw [h1]
      simp [UMap.WF])
    (by
      have h1 : Example.opened.dm.path2fd_ = [("t.db", 3)] := by decide
      have h2 : Example.opened.dm.fd2path_ = [(3, "t.db")] := by decide
      intro p d
      rw [h1, h2]
      by_cases hp : "t.db" = p
      · by_cases hd : (3 : Int) = d
        · simp [UMap.find, hp, hd]
        · have hd' : ¬ d = 3 := fun h => hd h.symm
          simp [UMap.find, hp, hd, hd']
      · have hp' : ¬ p = "t.db" := fun h => hp h.symm
        by_cases hd : (3 : Int) = d
        · simp [UMap.find, hp, hd, hp']
        · simp [UMap.find, hp, hd])

/-! ## A failed `open` inside `open_file` -/

/-- C3 (code defect): the invariant holds in the initial state, but after
`open_file("a")` and `open_file("b")` on two missing files (the system call
returns -1 both times) `path2fd_` maps `b` to -1 while `fd2path_` maps -1 to
`a`: the two maps are no longer mutually inverse. -/
theorem open_file_failed_open_breaks_inverse :
    Example.dm0.Inv ∧
    (Example.os0.open "a" .O_RDWR).1 = -1 ∧
    (Example.os0.open "b" .O_RDWR).1 = -1 ∧
    UMap.find Example.twoFailed.dm.path2fd_ "b" = some (-1) ∧
    UMap.find Example.twoFailed.dm.fd2path_ (-1) = some "a" ∧
    ¬ Example.twoFailed.dm.Inv := by
  refine ⟨?_, by decide, by decide, by decide, by decide, ?_⟩
  · intro p d
    simp [Example.dm0, DiskManager.new, UMap.find]
  · intro h
    have h1 : UMap.find Example.twoFailed.dm.path2fd_ "b" = some (-1) := by decide
    have h2 := (h "b" (-1)).mp h1
    revert h2
    decide

/-- C4 (code defect): `open_file("a")` on a missing file: the system call
fails with -1, and the pairs `("a", -1)` and `(-1, "a")` are added to maps that
were empty before the call. -/
theorem open_file_failed_open_registers :
    (Example.os0.open "a" .O_RDWR).1 = -1 ∧
    Example.dm0.path2fd_ = [] ∧ Example.dm0.fd2path_ = [] ∧
    (open_file Example.dm0 Example.os0 "a").out = .ret (-1) ∧
    (open_file Example.dm0 Example.os0 "a").dm.path2fd_ = [("a", -1)] ∧
    (open_file Example.dm0 Example.os0 "a").dm.fd2path_ = [(-1, "a")] := by
  decide

/-! ## `AllocatePage` -/

/-- C5 (counterexample): `t.db` is opened as descriptor 3 and one page is
allocated (result 0); after `close_file(3)` the file is opened again, again as
descriptor 3, and the next `AllocatePage(3)` returns 1, not 0. -/
theorem AllocatePage_continues_after_reopen :
    Example.opened.out = .ret 3 ∧
    (AllocatePage Example.opened.dm Example.opened.os 3).out = .ret 0 ∧
    Example.reopened.out = .ret 3 ∧
    (AllocatePage Example.reopened.dm Example.reopened.os 3).out = .ret 1 := by
  decide

theorem wrap32_of_range (x : Int) (h1 : -2147483648 ≤ x) (h2 : x ≤ 2147483647) :
    wrap32 x = x := by
  unfold wrap32
  omega

theorem wrap32_range (x : Int) : -2147483648 ≤ wrap32 x ∧ wrap32 x ≤ 2147483647 := by
  unfold wrap32
  omega

theorem wrap32_succ_pred (c : Int) (h1 : -2147483648 ≤ c) (h2 : c ≤ 2147483647) :
    wrap32 (wrap32 (c + 1) - 1) = c := by
  unfold wrap32
  omega

theorem AllocatePage_step (dm : DiskManager) (os : OS) (fd : Int)
    (hfd : 0 ≤ fd ∧ fd.toNat < dm.fd2pageno_.length) :
    (AllocatePage dm os fd).out
        = .ret (wrap32 (wrap32 (dm.fd2pageno_.getD fd.toNat 0 + 1) - 1)) ∧
      (AllocatePage dm os fd).dm.fd2pageno_.length = dm.fd2pageno_.length ∧
      (AllocatePage dm os fd).dm.fd2pageno_.getD fd.toNat 0
        = wrap32 (dm.fd2pageno_.getD fd.toNat 0 + 1) ∧
      (AllocatePage dm os fd).dm.path2fd_ = dm.path2fd_ ∧
      (AllocatePage dm os fd).dm.fd2path_ = dm.fd2path_ := by
  unfold AllocatePage
  rw [if_pos hfd]
  refine ⟨rfl, by simp, ?_, rfl, rfl⟩
  simp [List.getD_eq_getElem?_getD, List.getElem?_set, hfd.2]

theorem allocN_values (os : OS) (fd : Int) (N : Nat) :
    ∀ (dm : DiskManager) (c : Int), (0 ≤ fd ∧ fd.toNat < dm.fd2pageno_.length) →
      dm.fd2pageno_.getD fd.toNat 0 = c → -2147483648 ≤ c → c + N ≤ 2147483648 →
      (allocN dm os fd N).1 = (List.range N).map (fun (i : Nat) => Outcome.ret (c + (i : Int))) := by
  induction N with
  | zero => intro dm c _ _ _ _; rfl
  | succ n ih =>
    intro dm c hfd hc hlo hhi
    obtain ⟨hout, hlen, hget, _, _⟩ := AllocatePage_step dm os fd hfd
    rw [hc] at hout hget
    have hret : wrap32 (wrap32 (c + 1) - 1) = c :=
      wrap32_succ_pred c hlo (by push_cast at hhi; omega)
    rw [hret] at hout
    have hrec := ih (AllocatePage dm os fd).dm (wrap32 (c + 1)) (by rw [hlen]; exact hfd) hget
      (wrap32_range _).1
    simp only [allocN, hout, List.range_succ_eq_map, List.map_cons, List.map_map]
    congr 1
    · simp
    · cases n with
      | zero => rfl
      | succ k =>
        have hw : wrap32 (c + 1) = c + 1 :=
          wrap32_of_range _ (by omega) (by push_cast at hhi; omega)
        rw [hrec (by rw [hw]; push_cast at hhi ⊢; omega), hw]
        apply List.map_congr_left
        intro i _
        simp only [Function.comp, Nat.succ_eq_add_one]
        congr 1
        push_cast
        ring

/-- C5 (amended): for a descriptor inside the counter array whose counter
holds `c`, `N` consecutive `AllocatePage(fd)` calls return `c, c+1, ..., c+N-1`
(as long as these are `int` values); every counter of a freshly constructed
manager is 0, so there the results are `0, 1, ..., N-1`; and neither
`open_file` nor `close_file` changes any counter, so a counter is not reset
when a file is closed and opened again. -/
theorem AllocatePage_sequence (dm : DiskManager) (os : OS) (fd : Int) (N : Nat) (c : Int)
    (hfd : 0 ≤ fd ∧ fd.toNat < dm.fd2pageno_.length)
    (hc : dm.fd2pageno_.getD fd.toNat 0 = c)
    (hlo : -2147483648 ≤ c) (hhi : c + N ≤ 2147483648) :
    (allocN dm os fd N).1 = (List.range N).map (fun (i : Nat) => Outcome.ret (c + (i : Int))) ∧
    (∀ MAX_FD i, (DiskManager.new MAX_FD).fd2pageno_.getD i 0 = 0) ∧
    (∀ p, (open_file dm os p).dm.fd2pageno_ = dm.fd2pageno_) ∧
    (∀ d, (close_file dm os d).dm.fd2pageno_ = dm.fd2pageno_) := by
  refine ⟨allocN_values os fd N dm c hfd hc hlo hhi, ?_, ?_, ?_⟩
  · intro M i
    simp [DiskManager.new, List.getD_eq_getElem?_getD, List.getElem?_replicate]
    split <;> rfl
  · intro p
    by_cases h : (dm.path2fd_.any (fun e => decide (e.1 = p))) = false
    · simp only [open_file, h, if_true]
    · simp [open_file, h]
  · intro d
    rw [close_file_dm]

/-- C5 (witness): three allocations on descriptor 3 of a fresh manager. -/
theorem AllocatePage_sequence_witness :
    (allocN Example.dm0 Example.os0 3 3).1 = [.ret 0, .ret 1, .ret 2] :=
  (AllocatePage_sequence Example.dm0 Example.os0 3 3 0 (by decide) (by decide) (by decide)
    (by decide)).1

/-! ## Page transfer -/

namespace OS

theorem fd_nonneg {os : OS} {d : Int} {f : OpenFile} (h : os.fd d = some f) : 0 ≤ d := by
  unfold OS.fd at h
  by_contra hd
  simp [hd] at h

theorem fds_of_fd {os : OS} {d : Int} {f : OpenFile} (h : os.fd d = some f) :
    os.fds d.toNat = some f := by
  have hd := fd_nonneg h
  simpa [OS.fd, hd] using h

theorem lseek_set_ok (os : OS) (d off : Int) (f : OpenFile) (h : os.fd d = some f)
    (hoff : 0 ≤ off) :
    os.lseek_set d off =
      (off, { os with fds := Function.update os.fds d.toNat (some { f with pos := off.toNat }) }) := by
  simp [OS.lseek_set, h, hoff]

theorem write_ok (os : OS) (d : Int) (src data : List Nat) (f : OpenFile) (h : os.fd d = some f)
    (hwr : f.wr = true) (hino : os.inodes f.ino = some (.reg data)) :
    os.write d src =
      ((src.length : Int),
        { os with
          inodes := Function.update os.inodes f.ino (some (.reg (writeAt data f.pos src)))
          fds := Function.update os.fds d.toNat (some { f with pos := f.pos + src.length }) }) := by
  simp [OS.write, h, hwr, hino]

theorem read_ok (os : OS) (d : Int) (count : Nat) (data : List Nat) (f : OpenFile)
    (h : os.fd d = some f) (hrd : f.rd = true) (hino : os.inodes f.ino = some (.reg data)) :
    os.read d count =
      ((((data.drop f.pos).take count).length : Int), (data.drop f.pos).take count,
        { os with
          fds := Function.update os.fds d.toNat
            (some { f with pos := f.pos + ((data.drop f.pos).take count).length }) }) := by
  simp [OS.read, h, hrd, hino]

theorem writeAt_eq (data : List Nat) (pos : Nat) (src : List Nat) (h : src ≠ []) :
    writeAt data pos src =
      (data ++ List.replicate (pos - data.length) 0).take pos ++ src
        ++ data.drop (pos + src.length) := by
  simp [writeAt, h]

theorem writeAt_head_length (data : List Nat) (pos : Nat) :
    ((data ++ List.replicate (pos - data.length) 0).take pos).length = pos := by
  simp
  omega

theorem writeAt_read_back (data : List Nat) (pos : Nat) (src : List Nat) :
    ((writeAt data pos src).drop pos).take src.length = src := by
  by_cases h : src = []
  · simp [h]
  · rw [writeAt_eq _ _ _ h, List.append_assoc,
      List.drop_left' (writeAt_head_length data pos)]
    simp

theorem writeAt_idem (data : List Nat) (pos : Nat) (src : List Nat) :
    writeAt (writeAt data pos src) pos src = writeAt data pos src := by
  by_cases h : src = []
  · simp [writeAt, h]
  · rw [writeAt_eq (writeAt data pos src) _ _ h, writeAt_eq data _ _ h]
    have hl := writeAt_head_length data pos
    generalize (data ++ List.replicate (pos - data.length) 0).take pos = P at hl
    generalize data.drop (pos + src.length) = S
    have h1 : (P ++ src ++ S ++ List.replicate (pos - (P ++ src ++ S).length) 0).take pos = P := by
      rw [List.append_assoc, List.append_assoc, List.take_left' hl]
    have h2 : (P ++ src ++ S).drop (pos + src.length) = S := by
      apply List.drop_left'
      simp [hl]
    rw [h1, h2]

end OS

theorem toSizeT_of_nonneg (x : Int) (h0 : 0 ≤ x) (h1 : x ≤ INT_MAX) : toSizeT x = x.toNat := by
  unfold toSizeT
  unfold INT_MAX at h1
  congr 1
  omega

theorem write_page_ok (dm : DiskManager) (os : OS) (fd page_no num_bytes : Int)
    (buf data : List Nat) (f : OpenFile) (hfd : os.fd fd = some f) (hwr : f.wr = true)
    (hino : os.inodes f.ino = some (.reg data)) (hoff : 0 ≤ wrap32 (page_no * num_bytes)) :
    write_page dm os fd page_no buf num_bytes =
      ⟨.ret (), dm,
        { os with
          inodes := Function.update os.inodes f.ino
            (some (.reg (OS.writeAt data (wrap32 (page_no * num_bytes)).toNat
              (buf.take (toSizeT num_bytes)))))
          fds := Function.update os.fds fd.toNat
            (some { f with pos := (wrap32 (page_no * num_bytes)).toNat
                                    + (buf.take (toSizeT num_bytes)).length }) }⟩ := by
  have hd := OS.fd_nonneg hfd
  have hne : ¬ wrap32 (page_no * num_bytes) = -1 := by omega
  unfold write_page
  simp only [OS.lseek_set_ok os fd _ f hfd hoff, hne, if_false]
  rw [OS.write_ok
    { os with
      fds := Function.update os.fds fd.toNat
        (some { f with pos := (wrap32 (page_no * num_bytes)).toNat }) }
    fd _ data { f with pos := (wrap32 (page_no * num_bytes)).toNat }
    (by simp [OS.fd, hd]) hwr hino]
  simp

theorem read_page_ok (dm : DiskManager) (os : OS) (fd page_no num_bytes : Int)
    (buf data : List Nat) (f : OpenFile) (hfd : os.fd fd = some f) (hrd : f.rd = true)
    (hino : os.inodes f.ino = some (.reg data)) (hoff : 0 ≤ wrap32 (page_no * num_bytes)) :
    read_page dm os fd page_no buf num_bytes =
      ⟨.ret (),
        store buf ((data.drop (wrap32 (page_no * num_bytes)).toNat).take (toSizeT num_bytes)),
        dm,
        { os with
          fds := Function.update os.fds fd.toNat
            (some { f with pos := (wrap32 (page_no * num_bytes)).toNat
              + ((data.drop (wrap32 (page_no * num_bytes)).toNat).take
                  (toSizeT num_bytes)).length }) }⟩ := by
  have hd := OS.fd_nonneg hfd
  have hne : ¬ wrap32 (page_no * num_bytes) = -1 := by omega
  unfold read_page
  simp only [OS.lseek_set_ok os fd _ f hfd hoff, hne, if_false]
  rw [OS.read_ok
    { os with
      fds := Function.update os.fds fd.toNat
        (some { f with pos := (wrap32 (page_no * num_bytes)).toNat }) }
    fd _ data { f with pos := (wrap32 (page_no * num_bytes)).toNat }
    (by simp [OS.fd, hd]) hrd hino]
  simp

/-- C6 (counterexample): page 536870912 with page size 4 on the open
read/write descriptor 3: the 32-bit product is -2147483648, `lseek` rejects
it, `write_page` throws `UnixError` and writes nothing, and `read_page` throws
as well and leaves the output buffer as it was. -/
theorem write_page_offset_overflow :
    Example.opened.os.fd 3 = some ⟨2, 0, true, true⟩ ∧
    wrap32 (536870912 * 4) = -2147483648 ∧
    (write_page Example.opened.dm Example.opened.os 3 536870912 [1, 2, 3, 4] 4).out
      = .throw .UnixError ∧
    (write_page Example.opened.dm Example.opened.os 3 536870912 [1, 2, 3, 4] 4).os.inodes 2
      = some (.reg [65, 66]) ∧
    (read_page Example.opened.dm Example.opened.os 3 536870912 [0, 0, 0, 0] 4).out
      = .throw .UnixError ∧
    (read_page Example.opened.dm Example.opened.os 3 536870912 [0, 0, 0, 0] 4).buf
      = [0, 0, 0, 0] := by
  decide

/-- C6 (amended): on a descriptor open for reading and writing on a regular
file, for a page size `0 < num_bytes`, a buffer `b` of `num_bytes` bytes and a
page number whose 32-bit product with the page size is not negative,
`write_page` followed by `read_page` both return normally and the output buffer
equals `b`; the file content is the old content with `b` stored at the 32-bit
offset, which is `page_no * num_bytes` whenever that product is at most
`INT_MAX`; a second write/read pair gives the same buffer and leaves the same
states. -/
theorem write_read_page_round_trip (dm : DiskManager) (os : OS) (fd page_no num_bytes : Int)
    (b out data : List Nat) (f : OpenFile)
    (hfd : os.fd fd = some f) (hrd : f.rd = true) (hwr : f.wr = true)
    (hino : os.inodes f.ino = some (.reg data))
    (hn : 0 < num_bytes) (hmax : num_bytes ≤ INT_MAX)
    (hb : (b.length : Int) = num_bytes) (hout : out.length = b.length)
    (hoff : 0 ≤ wrap32 (page_no * num_bytes)) :
    (write_page dm os fd page_no b num_bytes).out = .ret () ∧
    (read_page (write_page dm os fd page_no b num_bytes).dm
      (write_page dm os fd page_no b num_bytes).os fd page_no out num_bytes).out = .ret () ∧
    (read_page (write_page dm os fd page_no b num_bytes).dm
      (write_page dm os fd page_no b num_bytes).os fd page_no out num_bytes).buf = b ∧
    (write_page dm os fd page_no b num_bytes).os.inodes f.ino
      = some (.reg (OS.writeAt data (wrap32 (page_no * num_bytes)).toNat b)) ∧
    ((OS.writeAt data (wrap32 (page_no * num_bytes)).toNat b).drop
      (wrap32 (page_no * num_bytes)).toNat).take b.length = b ∧
    (0 ≤ page_no → page_no * num_bytes ≤ INT_MAX →
      wrap32 (page_no * num_bytes) = page_no * num_bytes) ∧
    (let r := read_page (write_page dm os fd page_no b num_bytes).dm
        (write_page dm os fd page_no b num_bytes).os fd page_no out num_bytes
     let w2 := write_page r.dm r.os fd page_no b num_bytes
     let r2 := read_page w2.dm w2.os fd page_no out num_bytes
     w2.out = .ret () ∧ r2.out = .ret () ∧ r2.buf = b ∧ r2.dm = r.dm ∧ r2.os = r.os) := by
  have hd := OS.fd_nonneg hfd
  have hsz : toSizeT num_bytes = b.length := by
    rw [toSizeT_of_nonneg _ (le_of_lt hn) hmax, ← hb]
    simp
  have htake : b.take b.length = b := List.take_length b
  have hstore : store out b = b := by simp [store, hout]
  have hback := OS.writeAt_read_back data (wrap32 (page_no * num_bytes)).toNat b
  -- the first write
  have hw := write_page_ok dm os fd page_no num_bytes b data f hfd hwr hino hoff
  rw [hsz, htake] at hw
  -- the first read
  have hr := read_page_ok dm (write_page dm os fd page_no b num_bytes).os fd page_no num_bytes
    out (OS.writeAt data (wrap32 (page_no * num_bytes)).toNat b)
    { f with pos := (wrap32 (page_no * num_bytes)).toNat + b.length }
    (by rw [hw]; simp [OS.fd, hd]) hrd (by rw [hw]; simp) hoff
  rw [hsz, hback, hstore] at hr
  have hwdm : (write_page dm os fd page_no b num_bytes).dm = dm := by rw [hw]
  rw [hwdm]
  refine ⟨by rw [hw], by rw [hr], by rw [hr], by rw [hw]; simp, hback, ?_, ?_⟩
  · intro h0 h1
    apply wrap32_of_range
    · have := mul_nonneg h0 (le_of_lt hn)
      omega
    · unfold INT_MAX at h1
      exact h1
  · intro r w2 r2
    have hrdm : r.dm = dm := by simp only [r]; rw [hr]
    have hros : r.os = { (write_page dm os fd page_no b num_bytes).os with
        fds := Function.update (write_page dm os fd page_no b num_bytes).os.fds fd.toNat
          (some { f with pos := (wrap32 (page_no * num_bytes)).toNat + b.length }) } := by
      simp only [r]; rw [hr]
    have hw2 := write_page_ok r.dm r.os fd page_no num_bytes b
      (OS.writeAt data (wrap32 (page_no * num_bytes)).toNat b)
      { f with pos := (wrap32 (page_no * num_bytes)).toNat + b.length }
      (by rw [hros]; simp [OS.fd, hd]) hwr (by rw [hros, hw]; simp) hoff
    rw [hsz, htake, OS.writeAt_idem] at hw2
    have hr2 := read_page_ok w2.dm w2.os fd page_no num_bytes
      out (OS.writeAt data (wrap32 (page_no * num_bytes)).toNat b)
      { f with pos := (wrap32 (page_no * num_bytes)).toNat + b.length }
      (by simp only [w2]; rw [hw2]; simp [OS.fd, hd]) hrd
      (by simp only [w2]; rw [hw2]; simp) hoff
    rw [hsz, hback, hstore] at hr2
    refine ⟨by simp only [w2]; rw [hw2], by simp only [r2]; rw [hr2],
      by simp only [r2]; rw [hr2], ?_, ?_⟩
    · simp only [r2]; rw [hr2]; simp only [w2]; rw [hw2]
    · simp only [r2]; rw [hr2]; simp only [w2]; rw [hw2]
      rw [hros, hw]
      simp

/-- C6 (witness): page 2 of size 4 on descriptor 3 (`t.db`, open read/write). -/
theorem write_read_page_round_trip_witness :
    (read_page (write_page Example.opened.dm Example.opened.os 3 2 [1, 2, 3, 4] 4).dm
      (write_page Example.opened.dm Example.opened.os 3 2 [1, 2, 3, 4] 4).os 3 2
      [0, 0, 0, 0] 4).buf = [1, 2, 3, 4] :=
  (write_read_page_round_trip Example.opened.dm Example.opened.os 3 2 4 [1, 2, 3, 4]
    [0, 0, 0, 0] [65, 66] ⟨2, 0, true, true⟩ (by decide) (by decide) (by decide) (by decide)
    (by decide) (by decide) (by decide) (by decide) (by decide)).2.2.1

/-- C7 (code defect): short transfers are accepted.  On `t.db` (two bytes,
descriptor 3) `read_page` of page 1 with page size 4 seeks to offset 4, the
`read` call delivers 0 bytes, and `read_page` returns normally with the buffer
untouched; for page 0 the `read` call delivers 2 of 4 bytes and `read_page`
returns normally.  On the read-only descriptor 3 left open by `create_file`,
the seek succeeds, `write` fails with -1, and `write_page` returns normally. -/
theorem page_transfer_accepts_short_transfer :
    (Example.opened.os.lseek_set 3 4).1 = 4 ∧
    ((Example.opened.os.lseek_set 3 4).2.read 3 4).1 = 0 ∧
    (read_page Example.opened.dm Example.opened.os 3 1 [9, 9, 9, 9] 4).out = .ret () ∧
    (read_page Example.opened.dm Example.opened.os 3 1 [9, 9, 9, 9] 4).buf = [9, 9, 9, 9] ∧
    ((Example.opened.os.lseek_set 3 0).2.read 3 4).1 = 2 ∧
    (read_page Example.opened.dm Example.opened.os 3 0 [9, 9, 9, 9] 4).out = .ret () ∧
    (read_page Example.opened.dm Example.opened.os 3 0 [9, 9, 9, 9] 4).buf = [65, 66, 9, 9] ∧
    Example.created.os.fd 3 = some ⟨4, 0, true, false⟩ ∧
    (Example.created.os.lseek_set 3 0).1 = 0 ∧
    ((Example.created.os.lseek_set 3 0).2.write 3 [1, 2, 3, 4]).1 = -1 ∧
    (write_page Example.created.dm Example.created.os 3 0 [1, 2, 3, 4] 4).out = .ret () := by
  decide

/-! ## `create_file` -/

/-- C9 (counterexample): `t.db` is an existing regular file; `create_file`
returns normally (raises nothing) and the file keeps its two bytes. -/
theorem create_file_existing_no_error :
    Example.os0.stat "t.db" = some (.reg [65, 66]) ∧
    (create_file Example.dm0 Example.os0 "t.db").out = .ret () ∧
    (create_file Example.dm0 Example.os0 "t.db").os.stat "t.db" = some (.reg [65, 66]) := by
  decide

theorem OS.open_creat_stat (os : OS) (path : String) (h : os.stat path = none)
    (hok : (os.open path .O_CREAT).1 ≠ -1) :
    (os.open path .O_CREAT).2.stat path = some (.reg []) := by
  unfold OS.open at hok ⊢
  cases hl : os.lowestFree with
  | none => simp [hl] at hok
  | some d =>
    cases hn : os.names path with
    | none => simp [OS.stat]
    | some ino =>
      have hi : os.inodes ino = none := by simpa [OS.stat, hn] using h
      simp [hl, hn, hi] at hok

/-- The test `s.st_mode && S_IFREG` is a logical conjunction, so it holds for
every existing entry: the directory `d` is reported as a file, and
`create_file("d")` returns normally leaving the directory in place. -/
theorem is_file_accepts_directory :
    is_dir Example.os0 "d" = true ∧ is_file Example.os0 "d" = true ∧
    (create_file Example.dm0 Example.os0 "d").out = .ret () ∧
    (create_file Example.dm0 Example.os0 "d").os.stat "d" = some .dir := by
  decide

/-- C9 (amended): `create_file` never raises and never changes the registry;
when nothing exists at `path` and the `open` call with `O_CREAT` succeeds, an
empty regular file exists at `path` afterwards; when a regular file already
exists at `path`, the call returns normally and the file system is unchanged. -/
theorem create_file_spec (dm : DiskManager) (os : OS) (path : String) :
    (create_file dm os path).out = .ret () ∧
    (create_file dm os path).dm = dm ∧
    (os.stat path = none → (os.open path .O_CREAT).1 ≠ -1 →
      (create_file dm os path).os.stat path = some (.reg [])) ∧
    (∀ data, os.stat path = some (.reg data) → (create_file dm os path).os = os) := by
  refine ⟨?_, ?_, ?_, ?_⟩
  · simp only [create_file]
    split <;> rfl
  · simp only [create_file]
    split <;> rfl
  · intro h hok
    simp only [create_file, h]
    exact OS.open_creat_stat os path h hok
  · intro data h
    simp [create_file, h, Node.st_mode, S_IFREG]

/-- C9 (witness): creating `new.db`, which does not exist, in the initial state. -/
theorem create_file_spec_witness :
    (create_file Example.dm0 Example.os0 "new.db").os.stat "new.db" = some (.reg []) :=
  (create_file_spec Example.dm0 Example.os0 "new.db").2.2.1 (by decide) (by decide)

/-! ## `destroy_file` -/

/-- C10 (code defect): the result of `unlink` is ignored.  For the missing
path `ghost.db` and for the directory `d` the `unlink` call fails with -1, yet
`destroy_file` returns normally; the directory is still there afterwards. -/
theorem destroy_file_ignores_unlink_failure :
    Example.os0.stat "ghost.db" = none ∧
    (Example.os0.unlink "ghost.db").1 = -1 ∧
    (destroy_file Example.dm0 Example.os0 "ghost.db").out = .ret () ∧
    is_dir Example.os0 "d" = true ∧
    (Example.os0.unlink "d").1 = -1 ∧
    (destroy_file Example.dm0 Example.os0 "d").out = .ret () ∧
    (destroy_file Example.dm0 Example.os0 "d").os.stat "d" = some .dir := by
  decide

/-! ## The log channel -/

/-- C8 (counterexample): the log holds the 8 bytes `REC1REC2`; with
`offset = 2147483647` and `prev_log_end = 1` the position is 2147483648, past
the end of the file, but the 32-bit sum is negative and `ReadLog` throws
`UnixError` instead of returning `false`. -/
theorem ReadLog_position_overflow :
    Example.logged.os.stat LOG_FILE_NAME = some (.reg [82, 69, 67, 49, 82, 69, 67, 50]) ∧
    wrap32 (2147483647 + 1) = -2147483648 ∧
    (ReadLog Example.logged.dm Example.logged.os [0, 0, 0, 0] 1 2147483647 1).out
      = .throw .UnixError ∧
    (ReadLog Example.logged.dm Example.logged.os [0, 0, 0, 0] 1 2147483647 1).out
      ≠ .ret false ∧
    (ReadLog Example.logged.dm Example.logged.os [0, 0, 0, 0] 1 2147483647 1).out
      ≠ .ret true := by
  decide

theorem lazy_open_log_ready (dm : DiskManager) (os : OS) (L : List Nat)
    (h : dm.LogReady os L) :
    ∃ ino pos, (lazy_open_log dm os).2.names LOG_FILE_NAME = some ino ∧
      (lazy_open_log dm os).2.inodes ino = some (.reg L) ∧
      (lazy_open_log dm os).2.fd (lazy_open_log dm os).1.log_fd_
        = some ⟨ino, pos, true, true⟩ := by
  obtain ⟨ino, hn, hi, h | ⟨pos, hp⟩⟩ := h
  · obtain ⟨hfd, hreg, hfree⟩ := h
    obtain ⟨d, hd⟩ := Option.isSome_iff_exists.mp hfree
    have hany : dm.path2fd_.any (fun e => decide (e.1 = LOG_FILE_NAME)) = false := by
      rw [UMap.any_key_eq_isSome, hreg]
      rfl
    have hopen : os.open LOG_FILE_NAME .O_RDWR =
        ((d : Int), { os with fds := Function.update os.fds d (some ⟨ino, 0, true, true⟩) }) := by
      simp [OS.open, hd, hn, hi]
    refine ⟨ino, 0, ?_, ?_, ?_⟩ <;>
      simp [lazy_open_log, hfd, open_file, hany, hopen, hn, hi, OS.fd]
  · have hd := OS.fd_nonneg hp
    have hne : ¬ dm.log_fd_ = -1 := by omega
    exact ⟨ino, pos, by simp [lazy_open_log, hne, hn], by simp [lazy_open_log, hne, hi],
      by simp [lazy_open_log, hne, hp]⟩

theorem GetFileSize_reg (os : OS) (path : String) (ino : Nat) (L : List Nat)
    (hn : os.names path = some ino) (hi : os.inodes ino = some (.reg L))
    (hL : (L.length : Int) ≤ INT_MAX) : GetFileSize os path = L.length := by
  simp only [GetFileSize, OS.stat, hn, hi, Node.st_size]
  apply wrap32_of_range
  · omega
  · unfold INT_MAX at hL
    exact hL

theorem ReadLog_at_end (dm : DiskManager) (os : OS) (L buf : List Nat)
    (size offset prev_log_end : Int) (hready : dm.LogReady os L)
    (hL : (L.length : Int) ≤ INT_MAX)
    (hsum : offset + prev_log_end ≤ INT_MAX) (hpos : (L.length : Int) ≤ offset + prev_log_end) :
    ReadLog dm os buf size offset prev_log_end
      = ⟨.ret false, buf, (lazy_open_log dm os).1, (lazy_open_log dm os).2⟩ := by
  obtain ⟨ino, pos, hn, hi, _⟩ := lazy_open_log_ready dm os L hready
  have hsz := GetFileSize_reg _ _ ino L hn hi hL
  have hw : wrap32 (offset + prev_log_end) = offset + prev_log_end :=
    wrap32_of_range _ (by omega) (by unfold INT_MAX at hsum; exact hsum)
  simp only [ReadLog, hsz, hw, hpos, if_true]

theorem ReadLog_data (dm : DiskManager) (os : OS) (L buf : List Nat)
    (size offset prev_log_end : Int) (hready : dm.LogReady os L)
    (hL : (L.length : Int) ≤ INT_MAX) (hs : 0 ≤ size) (ho : 0 ≤ offset)
    (hp : 0 ≤ prev_log_end) (hpos : offset + prev_log_end < (L.length : Int)) :
    ∃ ino f,
      (lazy_open_log dm os).2.names LOG_FILE_NAME = some ino ∧
      (lazy_open_log dm os).2.inodes ino = some (.reg L) ∧
      f.ino = ino ∧ f.rd = true ∧ f.wr = true ∧
      ReadLog dm os buf size offset prev_log_end
        = ⟨.ret true,
            store buf ((L.drop (offset + prev_log_end).toNat).take
              (min size ((L.length : Int) - (offset + prev_log_end))).toNat),
            (lazy_open_log dm os).1,
            { (lazy_open_log dm os).2 with
              fds := Function.update (lazy_open_log dm os).2.fds
                (lazy_open_log dm os).1.log_fd_.toNat (some f) }⟩ := by
  obtain ⟨ino, pos, hn, hi, hfd⟩ := lazy_open_log_ready dm os L hready
  have hsz := GetFileSize_reg _ _ ino L hn hi hL
  have hmax : (L.length : Int) ≤ 2147483647 := by unfold INT_MAX at hL; exact hL
  have hw : wrap32 (offset + prev_log_end) = offset + prev_log_end :=
    wrap32_of_range _ (by omega) (by omega)
  have hw2 : wrap32 ((L.length : Int) - (offset + prev_log_end))
      = (L.length : Int) - (offset + prev_log_end) :=
    wrap32_of_range _ (by omega) (by omega)
  have hnle : ¬ (L.length : Int) ≤ offset + prev_log_end := by omega
  have hd := OS.fd_nonneg hfd
  have hk0 : 0 ≤ min size ((L.length : Int) - (offset + prev_log_end)) := by
    apply le_min hs
    omega
  have hk1 : min size ((L.length : Int) - (offset + prev_log_end)) ≤ INT_MAX := by
    have := min_le_right size ((L.length : Int) - (offset + prev_log_end))
    unfold INT_MAX
    omega
  have hglen : (((L.drop (offset + prev_log_end).toNat).take
      (min size ((L.length : Int) - (offset + prev_log_end))).toNat).length : Int)
      = min size ((L.length : Int) - (offset + prev_log_end)) := by
    have := min_le_right size ((L.length : Int) - (offset + prev_log_end))
    rw [List.length_take, List.length_drop]
    omega
  refine ⟨ino, ⟨ino, (offset + prev_log_end).toNat +
      ((L.drop (offset + prev_log_end).toNat).take
        (min size ((L.length : Int) - (offset + prev_log_end))).toNat).length,
      true, true⟩, hn, hi, rfl, rfl, rfl, ?_⟩
  simp only [ReadLog, hsz, hw, hw2, hnle, if_false]
  rw [OS.lseek_set_ok _ _ _ _ hfd (by omega)]
  rw [toSizeT_of_nonneg _ hk0 hk1]
  rw [OS.read_ok
    { (lazy_open_log dm os).2 with
      fds := Function.update (lazy_open_log dm os).2.fds (lazy_open_log dm os).1.log_fd_.toNat
        (some ⟨ino, (offset + prev_log_end).toNat, true, true⟩) }
    (lazy_open_log dm os).1.log_fd_ _ L
    ⟨ino, (offset + prev_log_end).toNat, true, true⟩
    (by simp [OS.fd, hd]) rfl hi]
  simp only [hglen, ne_eq, not_true_eq_false, if_false]
  simp

theorem OS.writeAt_end (L src : List Nat) : OS.writeAt L L.length src = L ++ src := by
  by_cases h : src = []
  · simp [OS.writeAt, h]
  · simp [OS.writeAt, h]

theorem ReadLog_core (dm : DiskManager) (os : OS) (L buf : List Nat)
    (size offset prev_log_end : Int) (hready : dm.LogReady os L)
    (hL : (L.length : Int) ≤ INT_MAX) (hs : 0 ≤ size) (ho : 0 ≤ offset)
    (hp : 0 ≤ prev_log_end) (hsum : offset + prev_log_end ≤ INT_MAX) :
    ((L.length : Int) ≤ offset + prev_log_end →
      (ReadLog dm os buf size offset prev_log_end).out = .ret false ∧
      (ReadLog dm os buf size offset prev_log_end).buf = buf) ∧
    (offset + prev_log_end < (L.length : Int) →
      (ReadLog dm os buf size offset prev_log_end).out = .ret true ∧
      (ReadLog dm os buf size offset prev_log_end).buf
        = store buf ((L.drop (offset + prev_log_end).toNat).take
            (min size ((L.length : Int) - (offset + prev_log_end))).toNat)) ∧
    (ReadLog dm os buf size offset prev_log_end).dm.LogReady
      (ReadLog dm os buf size offset prev_log_end).os L := by
  obtain ⟨ino, pos, hn, hi, hfd⟩ := lazy_open_log_ready dm os L hready
  have hd := OS.fd_nonneg hfd
  by_cases hpos : (L.length : Int) ≤ offset + prev_log_end
  · have h := ReadLog_at_end dm os L buf size offset prev_log_end hready hL hsum hpos
    refine ⟨fun _ => by rw [h]; exact ⟨rfl, rfl⟩, fun hlt => absurd hpos (by omega), ?_⟩
    rw [h]
    exact ⟨ino, hn, hi, Or.inr ⟨pos, hfd⟩⟩
  · have hlt : offset + prev_log_end < (L.length : Int) := by omega
    obtain ⟨ino', f, hn', hi', hf1, hf2, hf3, h⟩ :=
      ReadLog_data dm os L buf size offset prev_log_end hready hL hs ho hp hlt
    refine ⟨fun hle => absurd hle hpos, fun _ => by rw [h]; exact ⟨rfl, rfl⟩, ?_⟩
    rw [h]
    refine ⟨ino', hn', hi', Or.inr ⟨f.pos, ?_⟩⟩
    obtain ⟨fi, fp, fr, fw⟩ := f
    simp only at hf1 hf2 hf3
    subst hf1 hf2 hf3
    simp [OS.fd, hd]

theorem WriteLog_append (dm : DiskManager) (os : OS) (L data : List Nat) (size : Int)
    (hready : dm.LogReady os L) (hs : 0 ≤ size) (hmax : size ≤ INT_MAX)
    (hlen : (data.length : Int) = size) :
    (WriteLog dm os data size).out = .ret () ∧
    (WriteLog dm os data size).dm.LogReady (WriteLog dm os data size).os (L ++ data) := by
  obtain ⟨ino, pos, hn, hi, hfd⟩ := lazy_open_log_ready dm os L hready
  have hd := OS.fd_nonneg hfd
  have hsrc : data.take (toSizeT size) = data := by
    rw [toSizeT_of_nonneg _ hs hmax, ← hlen]
    simp
  have hseek : (lazy_open_log dm os).2.lseek_end (lazy_open_log dm os).1.log_fd_ =
      ((L.length : Int),
        { (lazy_open_log dm os).2 with
          fds := Function.update (lazy_open_log dm os).2.fds
            (lazy_open_log dm os).1.log_fd_.toNat (some ⟨ino, L.length, true, true⟩) }) := by
    simp [OS.lseek_end, hfd, hi, Node.st_size]
  have hwrite := OS.write_ok
    { (lazy_open_log dm os).2 with
      fds := Function.update (lazy_open_log dm os).2.fds
        (lazy_open_log dm os).1.log_fd_.toNat (some ⟨ino, L.length, true, true⟩) }
    (lazy_open_log dm os).1.log_fd_ data L ⟨ino, L.length, true, true⟩
    (by simp [OS.fd, hd]) rfl hi
  have hW : WriteLog dm os data size =
      ⟨.ret (), (lazy_open_log dm os).1,
        { (lazy_open_log dm os).2 with
          inodes := Function.update (lazy_open_log dm os).2.inodes ino
            (some (.reg (L ++ data)))
          fds := Function.update (lazy_open_log dm os).2.fds
            (lazy_open_log dm os).1.log_fd_.toNat
            (some ⟨ino, L.length + data.length, true, true⟩) }⟩ := by
    simp only [WriteLog, hseek, hsrc, hwrite, hlen, ne_eq, not_true_eq_false, if_false]
    simp [OS.writeAt_end]
  rw [hW]
  refine ⟨rfl, ino, hn, by simp, Or.inr ⟨L.length + data.length, by simp [OS.fd, hd]⟩⟩

/-- C8 (amended): let the log channel be usable on a log file with content `L`
of at most `INT_MAX` bytes, and let `size`, `offset`, `prev_log_end` be
non-negative with `pos = offset + prev_log_end` at most `INT_MAX`.  If
`pos ≥ |L|`, `ReadLog` returns `false` and the buffer is untouched; if
`pos < |L|`, it returns `true`, the first `k = min(size, |L| - pos)` bytes of
the buffer are `L[pos .. pos+k)` and the rest of the buffer is untouched.  When
the log is empty, after `WriteLog("REC1", 4)` and `WriteLog("REC2", 4)` the
calls `ReadLog(buf, 4, 0, 0)`, `ReadLog(buf, 4, 0, 4)`, `ReadLog(buf, 4, 0, 8)`
on a four-byte buffer give `true` with `REC1`, `true` with `REC2`, and `false`. -/
theorem ReadLog_spec (dm : DiskManager) (os : OS) (L buf : List Nat)
    (size offset prev_log_end : Int) (hready : dm.LogReady os L)
    (hL : (L.length : Int) ≤ INT_MAX) (hs : 0 ≤ size) (ho : 0 ≤ offset)
    (hp : 0 ≤ prev_log_end) (hsum : offset + prev_log_end ≤ INT_MAX) :
    ((L.length : Int) ≤ offset + prev_log_end →
      (ReadLog dm os buf size offset prev_log_end).out = .ret false ∧
      (ReadLog dm os buf size offset prev_log_end).buf = buf) ∧
    (offset + prev_log_end < (L.length : Int) →
      (ReadLog dm os buf size offset prev_log_end).out = .ret true ∧
      (ReadLog dm os buf size offset prev_log_end).buf.take
          (min size ((L.length : Int) - (offset + prev_log_end))).toNat
        = (L.drop (offset + prev_log_end).toNat).take
          (min size ((L.length : Int) - (offset + prev_log_end))).toNat ∧
      (ReadLog dm os buf size offset prev_log_end).buf.drop
          (min size ((L.length : Int) - (offset + prev_log_end))).toNat
        = buf.drop (min size ((L.length : Int) - (offset + prev_log_end))).toNat) ∧
    (L = [] → ∀ b0 : List Nat, b0.length = 4 →
      let w1 := WriteLog dm os [82, 69, 67, 49] 4
      let w2 := WriteLog w1.dm w1.os [82, 69, 67, 50] 4
      let r1 := ReadLog w2.dm w2.os b0 4 0 0
      let r2 := ReadLog r1.dm r1.os r1.buf 4 0 4
      let r3 := ReadLog r2.dm r2.os r2.buf 4 0 8
      w1.out = .ret () ∧ w2.out = .ret () ∧
      r1.out = .ret true ∧ r1.buf = [82, 69, 67, 49] ∧
      r2.out = .ret true ∧ r2.buf = [82, 69, 67, 50] ∧
      r3.out = .ret false ∧ r3.buf = [82, 69, 67, 50]) := by
  have hcore := ReadLog_core dm os L buf size offset prev_log_end hready hL hs ho hp hsum
  refine ⟨hcore.1, ?_, ?_⟩
  · intro hlt
    obtain ⟨hout, hbuf⟩ := hcore.2.1 hlt
    have hlen : ((L.drop (offset + prev_log_end).toNat).take
        (min size ((L.length : Int) - (offset + prev_log_end))).toNat).length
        = (min size ((L.length : Int) - (offset + prev_log_end))).toNat := by
      have := min_le_right size ((L.length : Int) - (offset + prev_log_end))
      rw [List.length_take, List.length_drop]
      omega
    refine ⟨hout, ?_, ?_⟩
    · rw [hbuf, store, List.take_left' hlen]
    · rw [hbuf, store, List.drop_left' hlen, hlen]
  · intro hnil b0 hb0 w1 w2 r1 r2 r3
    subst hnil
    have h1 := WriteLog_append dm os [] [82, 69, 67, 49] 4 hready (by decide) (by decide)
      (by decide)
    have h2 := WriteLog_append w1.dm w1.os _ [82, 69, 67, 50] 4 h1.2 (by decide) (by decide)
      (by decide)
    have hL8 : (([] ++ [82, 69, 67, 49] ++ [82, 69, 67, 50] : List Nat).length : Int)
        ≤ INT_MAX := by decide
    have c1 := ReadLog_core w2.dm w2.os _ b0 4 0 0 h2.2 hL8 (by decide) (by decide)
      (by decide) (by decide)
    have c2 := ReadLog_core r1.dm r1.os _ r1.buf 4 0 4 c1.2.2 hL8 (by decide) (by decide)
      (by decide) (by decide)
    have c3 := ReadLog_core r2.dm r2.os _ r2.buf 4 0 8 c2.2.2 hL8 (by decide) (by decide)
      (by decide) (by decide)
    obtain ⟨o1, b1⟩ := c1.2.1 (by decide)
    obtain ⟨o2, b2⟩ := c2.2.1 (by decide)
    obtain ⟨o3, b3⟩ := c3.1 (by decide)
    have e1 : r1.buf = [82, 69, 67, 49] := by
      rw [b1]
      have : (List.drop ((0 : Int) + 0).toNat ([] ++ [82, 69, 67, 49] ++ [82, 69, 67, 50])).take
          (min (4 : Int) ((([] ++ [82, 69, 67, 49] ++ [82, 69, 67, 50] : List Nat).length : Int)
            - (0 + 0))).toNat = [82, 69, 67, 49] := by decide
      rw [this]
      simp [store, hb0]
    have e2 : r2.buf = [82, 69, 67, 50] := by
      rw [b2, e1]
      decide
    exact ⟨h1.1, h2.1, o1, e1, o2, e2, o3, by rw [b3, e2]⟩

/-- C8 (witness): the amended statement at the state whose log holds
`REC1REC2` and whose `log_fd_` is descriptor 3: reading 4 bytes at position 4
returns `true`. -/
theorem ReadLog_spec_witness :
    (ReadLog Example.logged.dm Example.logged.os [0, 0, 0, 0] 4 0 4).out = .ret true :=
  ((ReadLog_spec Example.logged.dm Example.logged.os [82, 69, 67, 49, 82, 69, 67, 50]
    [0, 0, 0, 0] 4 0 4
    ⟨1, by decide, by decide, Or.inr ⟨8, by decide⟩⟩
    (by decide) (by decide) (by decide) (by decide) (by decide)).2.1 (by decide)).1

/-! ## What the registry operations do preserve

The defects shown above come from results of system calls that are not
tested.  The statements below describe the registry on the remaining inputs. -/

theorem Inv_new (MAX_FD : Nat) : (DiskManager.new MAX_FD).RegOK := by
  refine ⟨by simp [DiskManager.new, UMap.WF], by simp [DiskManager.new, UMap.WF], ?_⟩
  intro p d
  simp [DiskManager.new, UMap.find]

/-- Every `close_file` keeps the registry well formed and mutually inverse. -/
theorem close_file_preserves (dm : DiskManager) (os : OS) (fd : Int) (h : dm.RegOK) :
    (close_file dm os fd).dm.RegOK := by
  obtain ⟨hw1, hw2, hinv⟩ := h
  rw [close_file_dm]
  refine ⟨(UMap.WF_filter _ hw1 _ "").1, (UMap.WF_filter _ hw2 _ 0).1, ?_⟩
  intro p d
  simp only
  by_cases hd : d = fd
  · subst hd
    constructor
    · intro h
      exact absurd h (UMap.find_filter_val_ne _ _ _)
    · intro h
      rw [UMap.find_filter_key_self] at h
      cases h
  · rw [UMap.find_filter_key_ne _ _ _ hd]
    by_cases hp : UMap.find dm.path2fd_ p = some fd
    · constructor
      · intro h
        have hmem := List.mem_of_mem_filter (UMap.mem_of_find _ _ _ h)
        have := UMap.find_of_mem _ hw1 _ _ hmem
        rw [hp] at this
        exact absurd (Option.some.inj this).symm hd
      · intro h
        have := (hinv p d).mpr h
        rw [hp] at this
        exact absurd (Option.some.inj this).symm hd
    · rw [UMap.find_filter_val_keep _ _ _ hp]
      exact hinv p d

/-- An `open_file` whose system call returns a descriptor that is not yet a
key of `fd2path_` keeps the registry well formed and mutually inverse. -/
theorem open_file_preserves (dm : DiskManager) (os : OS) (path : String) (h : dm.RegOK)
    (hfresh : UMap.find dm.fd2path_ (os.open path .O_RDWR).1 = none) :
    (open_file dm os path).dm.RegOK := by
  obtain ⟨hw1, hw2, hinv⟩ := h
  by_cases hreg : (UMap.find dm.path2fd_ path).isSome = true
  · rw [((open_file_already_open_aux dm os path) hreg).2.1]
    exact ⟨hw1, hw2, hinv⟩
  · have hnone : UMap.find dm.path2fd_ path = none := by simpa using hreg
    have hany : dm.path2fd_.any (fun e => decide (e.1 = path)) = false := by
      rw [UMap.any_key_eq_isSome, hnone]
      rfl
    have hdm : (open_file dm os path).dm =
        { dm with path2fd_ := UMap.insert dm.path2fd_ path (os.open path .O_RDWR).1,
                  fd2path_ := UMap.insert dm.fd2path_ (os.open path .O_RDWR).1 path } := by
      simp only [open_file, hany, if_true]
    rw [hdm]
    refine ⟨UMap.WF_insert _ hw1 _ _, UMap.WF_insert _ hw2 _ _, ?_⟩
    intro p d
    simp only [UMap.find_insert]
    cases hp : UMap.find dm.path2fd_ p with
    | some w =>
      have hwp := (hinv p w).mp hp
      have hne : ¬ path = p := by
        intro e
        rw [e, hp] at hnone
        cases hnone
      by_cases hwd : w = d
      · subst hwd
        simp [hwp]
      · cases hq : UMap.find dm.fd2path_ d with
        | some q =>
          have hqd := (hinv q d).mpr hq
          have : ¬ q = p := by
            intro e
            rw [e, hp] at hqd
            exact hwd (Option.some.inj hqd)
          simp [hwd, this]
        | none => simp [hwd, hne]
    | none =>
      cases hq : UMap.find dm.fd2path_ d with
      | some q =>
        have hqd := (hinv q d).mpr hq
        have hqp : ¬ q = p := by
          intro e
          rw [e, hp] at hqd
          cases hqd
        have hfd : ¬ (os.open path .O_RDWR).1 = d := by
          intro e
          rw [e, hq] at hfresh
          cases hfresh
        simp [hqp, hfd]
      | none =>
        by_cases h1 : path = p <;> by_cases h2 : (os.open path .O_RDWR).1 = d <;>
          simp [h1, h2]

/-- On a well-formed, mutually inverse registry `destroy_file` returns
normally, removes `path` and the descriptor it had from both maps, keeps every
other entry and the invariant, and a following `open_file(path)` is not
rejected: it calls `open` and registers the descriptor it gets. -/
theorem destroy_file_registry (dm : DiskManager) (os : OS) (path : String) (h : dm.RegOK) :
    (destroy_file dm os path).out = .ret () ∧
    (destroy_file dm os path).dm.RegOK ∧
    UMap.find (destroy_file dm os path).dm.path2fd_ path = none ∧
    (∀ fd, UMap.find dm.path2fd_ path = some fd →
      UMap.find (destroy_file dm os path).dm.fd2path_ fd = none) ∧
    (∀ p, p ≠ path →
      UMap.find (destroy_file dm os path).dm.path2fd_ p = UMap.find dm.path2fd_ p) ∧
    (∀ os1 : OS,
      (open_file (destroy_file dm os path).dm os1 path).out = .ret (os1.open path .O_RDWR).1 ∧
      UMap.find (open_file (destroy_file dm os path).dm os1 path).dm.path2fd_ path
        = some (os1.open path .O_RDWR).1) := by
  obtain ⟨hw1, hw2, hinv⟩ := h
  have key : (destroy_file dm os path).out = .ret () ∧
      (destroy_file dm os path).dm.RegOK ∧
      UMap.find (destroy_file dm os path).dm.path2fd_ path = none ∧
      (∀ fd, UMap.find dm.path2fd_ path = some fd →
        UMap.find (destroy_file dm os path).dm.fd2path_ fd = none) ∧
      (∀ p, p ≠ path →
        UMap.find (destroy_file dm os path).dm.path2fd_ p = UMap.find dm.path2fd_ p) := by
    cases hp : UMap.find dm.path2fd_ path with
    | none =>
      have hD : destroy_file dm os path = ⟨.ret (), dm, (os.unlink path).2⟩ := by
        simp only [destroy_file, hp]
      rw [hD]
      exact ⟨rfl, ⟨hw1, hw2, hinv⟩, hp, fun fd h => (by cases h), fun p _ => rfl⟩
    | some fd =>
      have hf := (hinv path fd).mp hp
      have hD : destroy_file dm os path =
          ⟨.ret (),
            { dm with path2fd_ := UMap.erase dm.path2fd_ path,
                      fd2path_ := UMap.erase dm.fd2path_ fd },
            ((os.close fd).2.unlink path).2⟩ := by
        simp only [destroy_file, hp, hf]
      rw [hD]
      refine ⟨rfl, ⟨UMap.WF_erase _ hw1 _, UMap.WF_erase _ hw2 _, ?_⟩,
        UMap.find_erase_self _ hw1 _, ?_, fun p hne => UMap.find_erase_ne _ _ _ hne⟩
      · intro p d
        show UMap.find (UMap.erase dm.path2fd_ path) p = some d ↔
          UMap.find (UMap.erase dm.fd2path_ fd) d = some p
        by_cases hpp : p = path
        · rw [hpp, UMap.find_erase_self _ hw1]
          by_cases hd : d = fd
          · rw [hd, UMap.find_erase_self _ hw2]
            constructor <;> intro h <;> cases h
          · rw [UMap.find_erase_ne _ _ _ hd]
            constructor
            · intro h; cases h
            · intro h
              have := (hinv path d).mpr h
              rw [hp] at this
              exact absurd (Option.some.inj this).symm hd
        · rw [UMap.find_erase_ne _ _ _ hpp]
          by_cases hd : d = fd
          · rw [hd, UMap.find_erase_self _ hw2]
            constructor
            · intro h
              have := (hinv p fd).mp h
              rw [hf] at this
              exact absurd (Option.some.inj this).symm hpp
            · intro h; cases h
          · rw [UMap.find_erase_ne _ _ _ hd]
            exact hinv p d
      · intro fd' hfd'
        cases hfd'
        exact UMap.find_erase_self _ hw2 _
  refine ⟨key.1, key.2.1, key.2.2.1, key.2.2.2.1, key.2.2.2.2, ?_⟩
  intro os1
  have hnone := key.2.2.1
  have hany : (destroy_file dm os path).dm.path2fd_.any (fun e => decide (e.1 = path))
      = false := by
    rw [UMap.any_key_eq_isSome, hnone]
    rfl
  constructor
  · simp only [open_file, hany, if_true]
  · simp only [open_file, hany, if_true, UMap.find_insert, hnone]

/-- After the two failed opens and `destroy_file("a")`, the call
`destroy_file("b")` erases `fd2path_.find(-1)`, which is `end()`. -/
theorem destroy_file_after_failed_opens :
    (destroy_file Example.ghost.dm Example.ghost.os "b").out = .undefined := by
  decide
